import Mathlib

/-!
Verification of the tracklist/queue data model of the hifi.rs player
(`hifirs-player/src/queue/mod.rs`).  The queue of a `TrackListValue` is a
`BTreeMap<u32, Track>`; we embed it as an association list of
position/track pairs, iterated in list order, together with the
well-formedness predicate that the position keys are strictly increasing
(the invariant every `BTreeMap` maintains).  Machine integers (`u32`) are
embedded as `Nat`, with an explicit `% 2 ^ 32` where the code casts
(`queue.len() as u32`).
-/

/-- Modelled from the spec: the playback status of a `Track`,
`status ∈ {Unplayed, Playing, Played}` (spec §3); the `TrackStatus` enum
lives in `crate::service`, which is not among the sources. -/
inductive TrackStatus where
  | Unplayed
  | Playing
  | Played
deriving DecidableEq, Repr

/-- Modelled from the spec: the denormalized `Album` record of
`crate::service` (not among the sources); the queue code reads its
`total_tracks` declared count (a `u32`). -/
structure Album where
  id : Nat
  title : String
  total_tracks : Nat
deriving DecidableEq, Repr

/-- Modelled from the spec: the denormalized `Playlist` record of
`crate::service` (not among the sources); the queue code reads its
`tracks_count` declared count (a `u32`). -/
structure Playlist where
  id : Nat
  title : String
  tracks_count : Nat
deriving DecidableEq, Repr

/-- Modelled from the spec: the `Track` record of `crate::service` (not
among the sources): numeric id, title, duration, optional parent
album/playlist reference, and a mutable playback status (spec §3). -/
structure Track where
  id : Nat
  title : String
  duration : Nat
  album : Option Album
  playlist : Option Playlist
  status : TrackStatus
deriving DecidableEq, Repr

/-- `TrackListType` from `queue/mod.rs` (lines 8-15); the `Unknown`
variant is the `#[default]`. -/
inductive TrackListType where
  | Album
  | Playlist
  | Track
  | Unknown
deriving DecidableEq, Repr

/-- The queue of a `TrackListValue`: a `BTreeMap<u32, Track>` embedded as
an association list of position/track pairs in iteration (key) order. -/
abbrev Queue := List (Nat × Track)

/-- A `BTreeMap` iterates its entries in strictly increasing key order;
an embedded queue is well formed when its key sequence is strictly
increasing (hence keys are unique). -/
def QueueWF (q : Queue) : Prop :=
  List.Pairwise (fun a b : Nat × Track => a.1 < b.1) q

instance (q : Queue) : Decidable (QueueWF q) := by
  unfold QueueWF; infer_instance

/-- `BTreeMap::get`: the value stored at a key, if any. -/
def btreeGet : Queue → Nat → Option Track
  | [], _ => none
  | (k, v) :: rest, i => if i = k then some v else btreeGet rest i

/-- `BTreeMap::insert`: place a key/value pair at its sorted position,
replacing any existing entry with the same key. -/
def btreeInsert : Queue → Nat → Track → Queue
  | [], k, v => [(k, v)]
  | (k', v') :: rest, k, v =>
    if k < k' then (k, v) :: (k', v') :: rest
    else if k = k' then (k, v) :: rest
    else (k', v') :: btreeInsert rest k v

/-- Build a queue by inserting the given key/value pairs, in order, into
an initially empty `BTreeMap`. -/
def btreeInsertAll (ops : List (Nat × Track)) : Queue :=
  ops.foldl (fun m p => btreeInsert m p.1 p.2) []

/-- `TrackListValue` from `queue/mod.rs` (lines 47-54). -/
structure TrackListValue where
  queue : Queue
  album : Option Album
  playlist : Option Playlist
  list_type : TrackListType
deriving DecidableEq, Repr

namespace TrackListValue

/-- `TrackListValue::new` (lines 57-65): copy the given mapping verbatim
(or start empty), with no album, no playlist, `Unknown` type. -/
def new (queue : Option Queue) : TrackListValue :=
  { queue := queue.getD []
    album := none
    playlist := none
    list_type := TrackListType.Unknown }

/-- `TrackListValue::total` (lines 67-75); `queue.len() as u32` is the
length reduced mod `2 ^ 32`. -/
def total (t : TrackListValue) : Nat :=
  match t.album with
  | some album => album.total_tracks
  | none =>
    match t.playlist with
    | some list => list.tracks_count
    | none => t.queue.length % 2 ^ 32

/-- `TrackListValue::clear` (lines 77-83). -/
def clear (t : TrackListValue) : TrackListValue :=
  { t with
    list_type := TrackListType.Unknown
    album := none
    playlist := none
    queue := [] }

/-- `TrackListValue::set_album` (lines 85-91). -/
def set_album (t : TrackListValue) (album : Album) : TrackListValue :=
  { t with album := some album, list_type := TrackListType.Album }

/-- `TrackListValue::set_playlist` (lines 106-110). -/
def set_playlist (t : TrackListValue) (playlist : Playlist) : TrackListValue :=
  { t with playlist := some playlist, list_type := TrackListType.Playlist }

/-- `TrackListValue::set_list_type` (lines 117-120). -/
def set_list_type (t : TrackListValue) (list_type : TrackListType) : TrackListValue :=
  { t with list_type := list_type }

/-- `TrackListValue::find_track_by_index` (lines 127-130). -/
def find_track_by_index (t : TrackListValue) (index : Nat) : Option Track :=
  btreeGet t.queue index

/-- The in-place effect of `track.status = status` on the entry at
`position`: the matching entry has its status field replaced, any other
entry is untouched. -/
def updStatus (position : Nat) (status : TrackStatus) (p : Nat × Track) : Nat × Track :=
  if p.1 = position then (p.1, { p.2 with status := status }) else p

/-- `TrackListValue::set_track_status` (lines 132-137): update the status
of the entry at `position` in place; leave the map unchanged when the key
is absent. -/
def set_track_status (t : TrackListValue) (position : Nat) (status : TrackStatus) :
    TrackListValue :=
  { t with queue := t.queue.map (updStatus position status) }

/-- `TrackListValue::all_tracks` (lines 139-142): the values of the queue
in iteration order. -/
def all_tracks (t : TrackListValue) : List Track :=
  t.queue.map Prod.snd

/-- `TrackListValue::unplayed_tracks` (lines 144-156). -/
def unplayed_tracks (t : TrackListValue) : List Track :=
  (t.queue.filter fun p => decide (p.2.status = TrackStatus.Unplayed)).map Prod.snd

/-- `TrackListValue::played_tracks` (lines 158-170). -/
def played_tracks (t : TrackListValue) : List Track :=
  (t.queue.filter fun p => decide (p.2.status = TrackStatus.Played)).map Prod.snd

/-- `TrackListValue::track_index` (lines 172-183): a `for_each` over the
entries assigning `index = Some(i)` at every match; the mutable
accumulator is a left fold. -/
def track_index (t : TrackListValue) (track_id : Nat) : Option Nat :=
  t.queue.foldl (fun index p => if p.2.id = track_id then some p.1 else index) none

/-- `TrackListValue::current_track` (lines 185-189): the first value in
iteration order whose status is `Playing`. -/
def current_track (t : TrackListValue) : Option Track :=
  (t.queue.map Prod.snd).find? fun tr => decide (tr.status = TrackStatus.Playing)

/-- `TrackListValue::get_album` (lines 93-104). -/
def get_album (t : TrackListValue) : Option Album :=
  match t.current_track with
  | some c =>
    match c.album with
    | some album => some album
    | none => t.album
  | none => t.album

end TrackListValue

/-- The number of queue entries whose track status is `Playing`. -/
def playingCount (t : TrackListValue) : Nat :=
  (t.all_tracks.filter fun tr => decide (tr.status = TrackStatus.Playing)).length

/-- The spec's invariant: at most one track of the queue is `Playing`. -/
def AtMostOnePlaying (t : TrackListValue) : Prop :=
  playingCount t ≤ 1

instance (t : TrackListValue) : Decidable (AtMostOnePlaying t) := by
  unfold AtMostOnePlaying; infer_instance

/-- The position of the first track in queue order whose id matches, the
reading of `track_index` the spec asserts. -/
def firstMatchIndex (t : TrackListValue) (track_id : Nat) : Option Nat :=
  (t.queue.find? fun p => decide (p.2.id = track_id)).map Prod.fst

/-! ## The wire form

`serde_json` values, the encoding the derived `Serialize` impls produce
(unit enum variants become strings, structs become objects listing their
fields in declaration order, `Option` becomes null-or-payload), and the
decoding the derived `Deserialize` impls perform (field lookup by name;
a `BTreeMap<u32, Track>` only accepts a JSON object whose keys parse as
numbers — never an array). -/

/-- A JSON value. -/
inductive Json where
  | null
  | bool (b : Bool)
  | num (n : Nat)
  | str (s : String)
  | arr (elems : List Json)
  | obj (fields : List (String × Json))

/-- Encoding of a unit `TrackStatus` variant. -/
def encodeTrackStatus : TrackStatus → Json
  | TrackStatus.Unplayed => Json.str "Unplayed"
  | TrackStatus.Playing => Json.str "Playing"
  | TrackStatus.Played => Json.str "Played"

/-- Encoding of a unit `TrackListType` variant. -/
def encodeTrackListType : TrackListType → Json
  | TrackListType.Album => Json.str "Album"
  | TrackListType.Playlist => Json.str "Playlist"
  | TrackListType.Track => Json.str "Track"
  | TrackListType.Unknown => Json.str "Unknown"

/-- `Option<T>` encodes as null or the payload. -/
def encodeOption (f : α → Json) : Option α → Json
  | none => Json.null
  | some x => f x

/-- Derived encoding of `Album`. -/
def encodeAlbum (a : Album) : Json :=
  Json.obj
    [("id", Json.num a.id), ("title", Json.str a.title),
      ("total_tracks", Json.num a.total_tracks)]

/-- Derived encoding of `Playlist`. -/
def encodePlaylist (p : Playlist) : Json :=
  Json.obj
    [("id", Json.num p.id), ("title", Json.str p.title),
      ("tracks_count", Json.num p.tracks_count)]

/-- Derived encoding of `Track`. -/
def encodeTrack (t : Track) : Json :=
  Json.obj
    [("id", Json.num t.id), ("title", Json.str t.title),
      ("duration", Json.num t.duration),
      ("album", encodeOption encodeAlbum t.album),
      ("playlist", encodeOption encodePlaylist t.playlist),
      ("status", encodeTrackStatus t.status)]

/-- `serialize_btree` (`queue/mod.rs` lines 39-45): collect the map's
values and serialize that vector — the position keys are dropped and the
wire form is an array, not a map. -/
def serialize_btree (queue : Queue) : Json :=
  Json.arr ((queue.map Prod.snd).map encodeTrack)

/-- Derived encoding of `TrackListValue`, with the queue field routed
through `serialize_btree` by the `#[serde(serialize_with = ...)]`
attribute (lines 47-54). -/
def encodeTrackListValue (t : TrackListValue) : Json :=
  Json.obj
    [("queue", serialize_btree t.queue),
      ("album", encodeOption encodeAlbum t.album),
      ("playlist", encodeOption encodePlaylist t.playlist),
      ("list_type", encodeTrackListType t.list_type)]

/-- Field lookup by name in a decoded object. -/
def lookupField : List (String × Json) → String → Option Json
  | [], _ => none
  | (k, v) :: rest, key => if k = key then some v else lookupField rest key

/-- Decoding of a number. -/
def decodeNat : Json → Option Nat
  | Json.num n => some n
  | _ => none

/-- Decoding of a string. -/
def decodeString : Json → Option String
  | Json.str s => some s
  | _ => none

/-- Decoding of a unit `TrackStatus` variant. -/
def decodeTrackStatus : Json → Option TrackStatus
  | Json.str "Unplayed" => some TrackStatus.Unplayed
  | Json.str "Playing" => some TrackStatus.Playing
  | Json.str "Played" => some TrackStatus.Played
  | _ => none

/-- Decoding of a unit `TrackListType` variant. -/
def decodeTrackListType : Json → Option TrackListType
  | Json.str "Album" => some TrackListType.Album
  | Json.str "Playlist" => some TrackListType.Playlist
  | Json.str "Track" => some TrackListType.Track
  | Json.str "Unknown" => some TrackListType.Unknown
  | _ => none

/-- Decoding of an `Option<T>`: null is `None`, anything else must decode
as the payload. -/
def decodeOption (f : Json → Option α) : Json → Option (Option α)
  | Json.null => some none
  | j => (f j).map some

/-- Derived decoding of `Album`. -/
def decodeAlbum : Json → Option Album
  | Json.obj fs => do
    let id ← lookupField fs "id" >>= decodeNat
    let title ← lookupField fs "title" >>= decodeString
    let total ← lookupField fs "total_tracks" >>= decodeNat
    pure { id := id, title := title, total_tracks := total }
  | _ => none

/-- Derived decoding of `Playlist`. -/
def decodePlaylist : Json → Option Playlist
  | Json.obj fs => do
    let id ← lookupField fs "id" >>= decodeNat
    let title ← lookupField fs "title" >>= decodeString
    let count ← lookupField fs "tracks_count" >>= decodeNat
    pure { id := id, title := title, tracks_count := count }
  | _ => none

/-- Derived decoding of `Track`. -/
def decodeTrack : Json → Option Track
  | Json.obj fs => do
    let id ← lookupField fs "id" >>= decodeNat
    let title ← lookupField fs "title" >>= decodeString
    let duration ← lookupField fs "duration" >>= decodeNat
    let album ← lookupField fs "album" >>= decodeOption decodeAlbum
    let playlist ← lookupField fs "playlist" >>= decodeOption decodePlaylist
    let status ← lookupField fs "status" >>= decodeTrackStatus
    pure { id := id, title := title, duration := duration, album := album,
           playlist := playlist, status := status }
  | _ => none

/-- Decoding of a `BTreeMap<u32, Track>` (the derived impl for the
`queue` field — serde only customizes serialization): the wire form must
be a map whose keys parse as numbers; a sequence is a type error. -/
def decodeQueue : Json → Option Queue
  | Json.obj fs =>
    fs.foldlM
      (fun m kv => do
        let key ← kv.1.toNat?
        let tr ← decodeTrack kv.2
        pure (btreeInsert m key tr))
      []
  | _ => none

/-- Derived decoding of `TrackListValue`. -/
def decodeTrackListValue : Json → Option TrackListValue
  | Json.obj fs => do
    let queue ← lookupField fs "queue" >>= decodeQueue
    let album ← lookupField fs "album" >>= decodeOption decodeAlbum
    let playlist ← lookupField fs "playlist" >>= decodeOption decodePlaylist
    let lt ← lookupField fs "list_type" >>= decodeTrackListType
    pure { queue := queue, album := album, playlist := playlist, list_type := lt }
  | _ => none

/-! ## Concrete states used as witnesses and counterexamples -/

/-- A small track constructor for concrete states. -/
def mkTrack (i : Nat) (s : TrackStatus) : Track :=
  { id := i, title := "track", duration := 60, album := none, playlist := none,
    status := s }

/-- An empty tracklist with nothing set (scenario A of the spec). -/
def scenarioA : TrackListValue :=
  TrackListValue.new none

/-- A tracklist whose album declares twelve tracks while only three are
queued (scenario B of the spec). -/
def scenarioB : TrackListValue :=
  { queue := [(1, mkTrack 10 TrackStatus.Unplayed), (2, mkTrack 11 TrackStatus.Unplayed),
      (3, mkTrack 12 TrackStatus.Unplayed)],
    album := some { id := 5, title := "album", total_tracks := 12 },
    playlist := none,
    list_type := TrackListType.Album }

/-- A tracklist with one playing and one unplayed track. -/
def onePlayingTL : TrackListValue :=
  { queue := [(1, mkTrack 1 TrackStatus.Playing), (2, mkTrack 2 TrackStatus.Unplayed)],
    album := none, playlist := none, list_type := TrackListType.Unknown }

/-- A tracklist with one played, one playing and one unplayed track. -/
def mixedTL : TrackListValue :=
  { queue := [(1, mkTrack 1 TrackStatus.Played), (2, mkTrack 2 TrackStatus.Playing),
      (3, mkTrack 3 TrackStatus.Unplayed)],
    album := none, playlist := none, list_type := TrackListType.Unknown }

/-- A well-formed tracklist in which two tracks are playing at once. -/
def twoPlayingTL : TrackListValue :=
  { queue := [(3, mkTrack 30 TrackStatus.Playing), (5, mkTrack 50 TrackStatus.Playing)],
    album := none, playlist := none, list_type := TrackListType.Unknown }

/-- A track carrying its own embedded album. -/
def embeddedAlbumTrack : Track :=
  { id := 21, title := "embedded", duration := 60,
    album := some { id := 9, title := "other", total_tracks := 1 },
    playlist := none, status := TrackStatus.Playing }

/-- A tracklist whose playing track carries an embedded album different
from the tracklist-level album. -/
def embeddedAlbumTL : TrackListValue :=
  { queue := [(1, embeddedAlbumTrack)],
    album := some { id := 5, title := "parent", total_tracks := 3 },
    playlist := none,
    list_type := TrackListType.Album }

/-- Two distinct queue positions holding tracks with the same id. -/
def dupIdTL : TrackListValue :=
  { queue := [(1, mkTrack 7 TrackStatus.Unplayed), (2, mkTrack 7 TrackStatus.Played)],
    album := none, playlist := none, list_type := TrackListType.Unknown }

/-- A two-track queue used to exercise the frame conditions of
`set_track_status`. -/
def frameTL : TrackListValue :=
  { queue := [(1, mkTrack 4 TrackStatus.Unplayed), (2, mkTrack 5 TrackStatus.Playing)],
    album := none, playlist := none, list_type := TrackListType.Unknown }

/-! ## Claims -/

/-- C7: `clear()` resets the state to the empty queue with no album, no
playlist and `Unknown` list type, and is idempotent. -/
theorem clear_resets_and_is_idempotent (t : TrackListValue) :
    t.clear =
      { queue := [], album := none, playlist := none,
        list_type := TrackListType.Unknown }
      ∧ t.clear.clear = t.clear :=
  ⟨rfl, rfl⟩

/-- C5: `total()` prefers the album's declared `total_tracks`, then the
playlist's declared `tracks_count`, and otherwise returns the live queue
length (`len() as u32`, exact below `2 ^ 32`). -/
theorem total_precedence (t : TrackListValue) :
    (∀ a, t.album = some a → t.total = a.total_tracks)
      ∧ (t.album = none → ∀ p, t.playlist = some p → t.total = p.tracks_count)
      ∧ (t.album = none → t.playlist = none → t.queue.length < 2 ^ 32 →
          t.total = t.queue.length) := by
  refine ⟨?_, ?_, ?_⟩
  · intro a ha
    simp [TrackListValue.total, ha]
  · intro ha p hp
    simp [TrackListValue.total, ha, hp]
  · intro ha hp h
    simp only [TrackListValue.total, ha, hp]
    omega

/-- Witness for C5: on the empty tracklist `total()` is the queue length
`0`; with an album declaring `total_tracks = 12` and three queued tracks
it is `12`. -/
theorem total_precedence_witness :
    scenarioA.total = 0 ∧ scenarioB.total = 12 := by
  constructor
  · have h := (total_precedence scenarioA).2.2 rfl rfl (by decide)
    simpa using h
  · exact (total_precedence scenarioB).1 _ rfl

/-- C6: `get_album()` returns the playing track's embedded album when a
track is playing and carries one; in every other case it falls back to
the tracklist-level album. -/
theorem get_album_override (t : TrackListValue) :
    (∀ c a, t.current_track = some c → c.album = some a → t.get_album = some a)
      ∧ (∀ c, t.current_track = some c → c.album = none → t.get_album = t.album)
      ∧ (t.current_track = none → t.get_album = t.album) := by
  refine ⟨?_, ?_, ?_⟩
  · intro c a hc ha
    simp [TrackListValue.get_album, hc, ha]
  · intro c hc ha
    simp [TrackListValue.get_album, hc, ha]
  · intro hc
    simp [TrackListValue.get_album, hc]

/-- Witness for C6: with a playing track carrying an embedded album,
`get_album()` returns the embedded album; on an empty queue it returns
the tracklist-level album. -/
theorem get_album_override_witness :
    embeddedAlbumTL.get_album = some { id := 9, title := "other", total_tracks := 1 }
      ∧ scenarioB.get_album = scenarioB.album := by
  constructor
  · exact (get_album_override embeddedAlbumTL).1 embeddedAlbumTrack _ rfl rfl
  · exact (get_album_override scenarioB).2.2 rfl

/-- Counterexample for C2: already on the default (empty) tracklist the
encode/decode round trip fails — the queue is serialized as an array of
track values, while the derived deserializer only accepts a
position-to-track map. -/
theorem roundtrip_counterexample :
    decodeTrackListValue (encodeTrackListValue (TrackListValue.new none)) = none
      ∧ decodeTrackListValue (encodeTrackListValue (TrackListValue.new none))
        ≠ some (TrackListValue.new none) := by
  refine ⟨rfl, ?_⟩
  intro h
  rw [show decodeTrackListValue (encodeTrackListValue (TrackListValue.new none))
      = none from rfl] at h
  exact Option.noConfusion h

/-- C2 (amended): decoding the wire form of any `TrackListValue` fails,
because `serialize_btree` drops the position keys and emits a bare array
while deserialization of the queue field expects a map. -/
theorem roundtrip_decode_fails (t : TrackListValue) :
    decodeTrackListValue (encodeTrackListValue t) = none := rfl

/-- The fold of `track_index` keeps the last matching position: folding
from any accumulator yields the last match when one exists, else the
accumulator. -/
theorem foldl_keeps_last_match (tid : Nat) (l : List (Nat × Track)) :
    ∀ acc : Option Nat,
      l.foldl (fun index p => if p.2.id = tid then some p.1 else index) acc =
        (((l.filter fun p => decide (p.2.id = tid)).getLast?).map
          (fun q => some q.1)).getD acc := by
  induction l using List.reverseRecOn with
  | nil => intro acc; rfl
  | append_singleton l p ih =>
    intro acc
    rw [List.foldl_append, ih, List.filter_append]
    by_cases h : p.2.id = tid
    · simp [List.filter_cons, h, List.getLast?_concat]
    · simp [List.filter_cons, h]

/-- Counterexample for C1: with tracks of id 7 at positions 1 and 2 (a
well-formed queue), the first match is at position 1 but `track_index`
returns position 2 — the fold overwrites the index at every match, so
the last one wins. -/
theorem track_index_counterexample :
    QueueWF dupIdTL.queue
      ∧ firstMatchIndex dupIdTL 7 = some 1
      ∧ dupIdTL.track_index 7 = some 2
      ∧ dupIdTL.track_index 7 ≠ firstMatchIndex dupIdTL 7 := by
  refine ⟨by decide, rfl, rfl, by decide⟩

/-- C1 (amended): `track_index(track_id)` returns the position key of the
last track in queue order whose id equals `track_id`, and `none` when no
track in the queue has that id. -/
theorem track_index_last_match (t : TrackListValue) (track_id : Nat) :
    t.track_index track_id =
      ((t.queue.filter fun p => decide (p.2.id = track_id)).getLast?).map Prod.fst := by
  rw [TrackListValue.track_index, foldl_keeps_last_match]
  cases (t.queue.filter fun p => decide (p.2.id = track_id)).getLast? <;> rfl

/-- A key on which `btreeGet` fails appears on no entry of the queue. -/
theorem btreeGet_none_forall (q : Queue) (pos : Nat) (h : btreeGet q pos = none) :
    ∀ p ∈ q, p.1 ≠ pos := by
  induction q with
  | nil => simp
  | cons hd rest ih =>
    obtain ⟨k, v⟩ := hd
    by_cases hp : pos = k
    · rw [btreeGet, if_pos hp] at h
      exact absurd h (Option.some_ne_none v)
    · rw [btreeGet, if_neg hp] at h
      intro p hpm
      rcases List.mem_cons.mp hpm with rfl | hmem
      · exact fun hc => hp hc.symm
      · exact ih h p hmem

/-- `updStatus` at the matching key replaces the status field. -/
theorem updStatus_of_eq (pos : Nat) (s : TrackStatus) (k : Nat) (v : Track)
    (h : k = pos) :
    TrackListValue.updStatus pos s (k, v) = (k, { v with status := s }) := by
  simp [TrackListValue.updStatus, h]

/-- `updStatus` away from the matching key is the identity. -/
theorem updStatus_of_ne (pos : Nat) (s : TrackStatus) (k : Nat) (v : Track)
    (h : ¬k = pos) :
    TrackListValue.updStatus pos s (k, v) = (k, v) := by
  simp [TrackListValue.updStatus, h]

/-- Updating the status at an absent key is the identity on the entry
list. -/
theorem map_update_id (q : Queue) (pos : Nat) (s : TrackStatus)
    (h : ∀ p ∈ q, p.1 ≠ pos) :
    q.map (TrackListValue.updStatus pos s) = q := by
  induction q with
  | nil => rfl
  | cons hd rest ih =>
    obtain ⟨k, v⟩ := hd
    rw [List.map_cons, updStatus_of_ne pos s k v (h (k, v) (List.mem_cons_self _ _)),
      ih]
    intro p hp
    exact h p (List.mem_cons_of_mem _ hp)

/-- What `btreeGet` sees after the status-update map of
`set_track_status`: the entry at the updated key has its status replaced,
every other key reads as before. -/
theorem btreeGet_map_update (q : Queue) (pos j : Nat) (s : TrackStatus) :
    btreeGet (q.map (TrackListValue.updStatus pos s)) j =
      if j = pos then (btreeGet q pos).map (fun tr => { tr with status := s })
      else btreeGet q j := by
  induction q with
  | nil =>
    by_cases hj : j = pos <;> simp [btreeGet, hj]
  | cons hd rest ih =>
    obtain ⟨k, v⟩ := hd
    rw [List.map_cons]
    by_cases hk : k = pos
    · rw [updStatus_of_eq pos s k v hk]
      subst hk
      by_cases hj : j = k
      · subst hj
        simp [btreeGet]
      · simp [btreeGet, ih, hj]
    · rw [updStatus_of_ne pos s k v hk]
      have hk' : ¬pos = k := fun h => hk h.symm
      by_cases hj : j = k
      · subst hj
        simp [btreeGet, hk]
      · simp [btreeGet, ih, hj, hk']

/-- The status-update map of `set_track_status` never changes the key of
an entry. -/
theorem map_update_fst (q : Queue) (pos : Nat) (s : TrackStatus) :
    (q.map (TrackListValue.updStatus pos s)).map Prod.fst = q.map Prod.fst := by
  rw [List.map_map]
  refine List.map_congr_left fun p _ => ?_
  obtain ⟨k, v⟩ := p
  by_cases h : k = pos
  · rw [Function.comp_apply, updStatus_of_eq pos s k v h]
  · rw [Function.comp_apply, updStatus_of_ne pos s k v h]

/-- C8: `set_track_status(pos, status)` is a no-op when `pos` is absent
from the queue; when `pos` is present it replaces only the status of the
track stored there, leaving its other fields, every other entry, the key
sequence, and the album/playlist/list-type fields unchanged. -/
theorem set_track_status_frame (t : TrackListValue) (pos : Nat) (s : TrackStatus) :
    (btreeGet t.queue pos = none → t.set_track_status pos s = t)
      ∧ ∀ tr, btreeGet t.queue pos = some tr →
          btreeGet (t.set_track_status pos s).queue pos = some { tr with status := s }
            ∧ (∀ j, j ≠ pos →
                btreeGet (t.set_track_status pos s).queue j = btreeGet t.queue j)
            ∧ (t.set_track_status pos s).queue.map Prod.fst = t.queue.map Prod.fst
            ∧ (t.set_track_status pos s).album = t.album
            ∧ (t.set_track_status pos s).playlist = t.playlist
            ∧ (t.set_track_status pos s).list_type = t.list_type := by
  constructor
  · intro h
    obtain ⟨q, a, pl, lt⟩ := t
    simp only [TrackListValue.set_track_status]
    rw [map_update_id _ _ _ (btreeGet_none_forall _ _ h)]
  · intro tr htr
    refine ⟨?_, ?_, map_update_fst _ _ _, rfl, rfl, rfl⟩
    · rw [TrackListValue.set_track_status, btreeGet_map_update, if_pos rfl, htr]
      rfl
    · intro j hj
      rw [TrackListValue.set_track_status, btreeGet_map_update, if_neg hj]

/-- Setting a non-`Playing` status cannot increase the number of playing
entries: every entry either keeps its status or receives `s`. -/
theorem playingCount_map_update_le (q : Queue) (pos : Nat) (s : TrackStatus)
    (hs : s ≠ TrackStatus.Playing) :
    (((q.map (TrackListValue.updStatus pos s)).map Prod.snd).filter
        fun tr => decide (tr.status = TrackStatus.Playing)).length ≤
      ((q.map Prod.snd).filter fun tr => decide (tr.status = TrackStatus.Playing)).length := by
  induction q with
  | nil => exact Nat.le_refl 0
  | cons hd rest ih =>
    obtain ⟨k, v⟩ := hd
    rw [List.map_map] at ih
    rw [List.map_cons]
    by_cases hk : k = pos
    · rw [updStatus_of_eq pos s k v hk]
      by_cases hv : v.status = TrackStatus.Playing
      · simp only [List.map_cons, List.filter_cons]
        simp [hs, hv]
        exact Nat.le_trans ih (Nat.le_succ _)
      · simp only [List.map_cons, List.filter_cons]
        simp [hs, hv]
        exact ih
    · rw [updStatus_of_ne pos s k v hk]
      by_cases hv : v.status = TrackStatus.Playing
      · simp only [List.map_cons, List.filter_cons]
        simp [hv]
        exact ih
      · simp only [List.map_cons, List.filter_cons]
        simp [hv]
        exact ih

/-- Counterexample for C3: a state with the track at position 1 playing
satisfies the invariant, yet `set_track_status(2, Playing)` — one of the
listed operations — produces a state with two playing tracks. -/
theorem set_track_status_playing_counterexample :
    AtMostOnePlaying onePlayingTL
      ∧ ¬AtMostOnePlaying (onePlayingTL.set_track_status 2 TrackStatus.Playing) := by
  constructor <;> decide

/-- C3 (amended): at most one playing track is preserved by `clear`,
`set_album`, `set_playlist`, `set_list_type`, and by
`set_track_status(pos, s)` whenever `s ≠ Playing`; `new` copies the given
mapping verbatim, so it satisfies the invariant exactly when its input
does (and always does from `None`).  `set_track_status(pos, Playing)` can
break the invariant. -/
theorem at_most_one_playing_preserved (t : TrackListValue) (h : AtMostOnePlaying t) :
    AtMostOnePlaying t.clear
      ∧ (∀ a, AtMostOnePlaying (t.set_album a))
      ∧ (∀ p, AtMostOnePlaying (t.set_playlist p))
      ∧ (∀ lt, AtMostOnePlaying (t.set_list_type lt))
      ∧ (∀ pos s, s ≠ TrackStatus.Playing →
          AtMostOnePlaying (t.set_track_status pos s))
      ∧ (∀ q, ((q.map Prod.snd).filter
            fun tr => decide (tr.status = TrackStatus.Playing)).length ≤ 1 →
          AtMostOnePlaying (TrackListValue.new (some q)))
      ∧ AtMostOnePlaying (TrackListValue.new none) := by
  refine ⟨Nat.zero_le 1, fun a => h, fun p => h, fun lt => h, ?_, fun q hq => hq,
    Nat.zero_le 1⟩
  intro pos s hs
  exact Nat.le_trans (playingCount_map_update_le t.queue pos s hs) h

/-- Witness for C3 (amended): on the concrete one-playing state, `clear`
and a non-`Playing` status update keep the invariant. -/
theorem at_most_one_playing_preserved_witness :
    AtMostOnePlaying onePlayingTL
      ∧ AtMostOnePlaying onePlayingTL.clear
      ∧ AtMostOnePlaying (onePlayingTL.set_track_status 1 TrackStatus.Played) :=
  ⟨by decide, (at_most_one_playing_preserved onePlayingTL (by decide)).1,
    (at_most_one_playing_preserved onePlayingTL (by decide)).2.2.2.2.1 1
      TrackStatus.Played (by decide)⟩

/-- Membership in the unplayed view is membership in the queue with
status `Unplayed`. -/
theorem mem_unplayed_iff (t : TrackListValue) (tr : Track) :
    tr ∈ t.unplayed_tracks ↔ tr ∈ t.all_tracks ∧ tr.status = TrackStatus.Unplayed := by
  constructor
  · intro h
    obtain ⟨p, hp, rfl⟩ := List.mem_map.mp h
    have h2 := List.mem_filter.mp hp
    exact ⟨List.mem_map.mpr ⟨p, h2.1, rfl⟩, of_decide_eq_true h2.2⟩
  · intro h
    obtain ⟨p, hp, rfl⟩ := List.mem_map.mp h.1
    exact List.mem_map.mpr ⟨p, List.mem_filter.mpr ⟨hp, decide_eq_true h.2⟩, rfl⟩

/-- Membership in the played view is membership in the queue with status
`Played`. -/
theorem mem_played_iff (t : TrackListValue) (tr : Track) :
    tr ∈ t.played_tracks ↔ tr ∈ t.all_tracks ∧ tr.status = TrackStatus.Played := by
  constructor
  · intro h
    obtain ⟨p, hp, rfl⟩ := List.mem_map.mp h
    have h2 := List.mem_filter.mp hp
    exact ⟨List.mem_map.mpr ⟨p, h2.1, rfl⟩, of_decide_eq_true h2.2⟩
  · intro h
    obtain ⟨p, hp, rfl⟩ := List.mem_map.mp h.1
    exact List.mem_map.mpr ⟨p, List.mem_filter.mpr ⟨hp, decide_eq_true h.2⟩, rfl⟩

/-- The current track, when present, is a queued track with status
`Playing`. -/
theorem current_track_mem_status (t : TrackListValue) (tr : Track)
    (h : t.current_track = some tr) :
    tr ∈ t.all_tracks ∧ tr.status = TrackStatus.Playing := by
  have h' : (t.queue.map Prod.snd).find?
      (fun tr => decide (tr.status = TrackStatus.Playing)) = some tr := h
  have hfs := List.find?_some h'
  exact ⟨List.mem_of_find?_eq_some h', of_decide_eq_true hfs⟩

/-- With at most one playing element, the first playing element the scan
finds is any playing member. -/
theorem find?_playing_unique (l : List Track)
    (h : (l.filter fun tr => decide (tr.status = TrackStatus.Playing)).length ≤ 1)
    (tr : Track) (htr : tr ∈ l) (hst : tr.status = TrackStatus.Playing) :
    (l.find? fun tr => decide (tr.status = TrackStatus.Playing)) = some tr := by
  induction l with
  | nil => cases htr
  | cons v rest ih =>
    by_cases hv : v.status = TrackStatus.Playing
    · rw [List.find?_cons_of_pos
        (p := fun tr : Track => decide (tr.status = TrackStatus.Playing)) _ (decide_eq_true hv)]
      rcases List.mem_cons.mp htr with rfl | hmem
      · rfl
      · exfalso
        rw [List.filter_cons_of_pos
          (p := fun tr : Track => decide (tr.status = TrackStatus.Playing)) (decide_eq_true hv),
          List.length_cons] at h
        have h2 : tr ∈ rest.filter fun tr => decide (tr.status = TrackStatus.Playing) :=
          List.mem_filter.mpr ⟨hmem, decide_eq_true hst⟩
        have h3 := List.length_pos.mpr (List.ne_nil_of_mem h2)
        omega
    · rw [List.find?_cons_of_neg
        (p := fun tr : Track => decide (tr.status = TrackStatus.Playing)) _ (by simp [hv])]
      rcases List.mem_cons.mp htr with rfl | hmem
      · exact absurd hst hv
      · apply ih _ hmem
        rwa [List.filter_cons_of_neg
          (p := fun tr : Track => decide (tr.status = TrackStatus.Playing)) (by simp [hv])] at h

/-- C4: under at most one playing track, the unplayed view, the played
view and the current track (as a zero- or one-element collection) are
pairwise disjoint and together cover exactly `all_tracks()`. -/
theorem partition_views (t : TrackListValue) (h : AtMostOnePlaying t) :
    (∀ tr ∈ t.unplayed_tracks, tr ∉ t.played_tracks)
      ∧ (∀ tr ∈ t.unplayed_tracks, tr ∉ (t.current_track).toList)
      ∧ (∀ tr ∈ t.played_tracks, tr ∉ (t.current_track).toList)
      ∧ ∀ tr, tr ∈ t.all_tracks ↔
          tr ∈ t.unplayed_tracks ∨ tr ∈ t.played_tracks
            ∨ tr ∈ (t.current_track).toList := by
  refine ⟨?_, ?_, ?_, ?_⟩
  · intro tr h1 h2
    have s1 := ((mem_unplayed_iff t tr).mp h1).2
    have s2 := ((mem_played_iff t tr).mp h2).2
    rw [s1] at s2
    exact absurd s2 (by decide)
  · intro tr h1 h2
    have s1 := ((mem_unplayed_iff t tr).mp h1).2
    have hc : t.current_track = some tr := Option.mem_def.mp (Option.mem_toList.mp h2)
    have s2 := (current_track_mem_status t tr hc).2
    rw [s1] at s2
    exact absurd s2 (by decide)
  · intro tr h1 h2
    have s1 := ((mem_played_iff t tr).mp h1).2
    have hc : t.current_track = some tr := Option.mem_def.mp (Option.mem_toList.mp h2)
    have s2 := (current_track_mem_status t tr hc).2
    rw [s1] at s2
    exact absurd s2 (by decide)
  · intro tr
    constructor
    · intro hmem
      cases hst : tr.status with
      | Unplayed => exact Or.inl ((mem_unplayed_iff t tr).mpr ⟨hmem, hst⟩)
      | Played => exact Or.inr (Or.inl ((mem_played_iff t tr).mpr ⟨hmem, hst⟩))
      | Playing =>
        refine Or.inr (Or.inr ?_)
        have hfind := find?_playing_unique t.all_tracks h tr hmem hst
        exact Option.mem_toList.mpr (Option.mem_def.mpr hfind)
    · intro hor
      rcases hor with h1 | h1 | h1
      · exact ((mem_unplayed_iff t tr).mp h1).1
      · exact ((mem_played_iff t tr).mp h1).1
      · exact (current_track_mem_status t tr
          (Option.mem_def.mp (Option.mem_toList.mp h1))).1

/-- Witness for C4: on a state with one played, one playing and one
unplayed track, the three views cover `all_tracks()`. -/
theorem partition_views_witness :
    AtMostOnePlaying mixedTL
      ∧ ∀ tr, tr ∈ mixedTL.all_tracks ↔
          tr ∈ mixedTL.unplayed_tracks ∨ tr ∈ mixedTL.played_tracks
            ∨ tr ∈ (mixedTL.current_track).toList :=
  ⟨by decide, (partition_views mixedTL (by decide)).2.2.2⟩

/-- Every entry of `btreeInsert q k v` is the inserted pair or an entry
of `q`. -/
theorem mem_btreeInsert {q : Queue} {k : Nat} {v : Track} {p : Nat × Track}
    (h : p ∈ btreeInsert q k v) : p = (k, v) ∨ p ∈ q := by
  induction q with
  | nil =>
    rw [btreeInsert] at h
    exact Or.inl (List.mem_singleton.mp h)
  | cons hd rest ih =>
    obtain ⟨k', v'⟩ := hd
    rw [btreeInsert] at h
    by_cases h1 : k < k'
    · rw [if_pos h1] at h
      rcases List.mem_cons.mp h with rfl | h2
      · exact Or.inl rfl
      · exact Or.inr h2
    · rw [if_neg h1] at h
      by_cases h2 : k = k'
      · rw [if_pos h2] at h
        rcases List.mem_cons.mp h with rfl | h3
        · exact Or.inl rfl
        · exact Or.inr (List.mem_cons_of_mem _ h3)
      · rw [if_neg h2] at h
        rcases List.mem_cons.mp h with rfl | h3
        · exact Or.inr (List.mem_cons_self _ _)
        · rcases ih h3 with h4 | h4
          · exact Or.inl h4
          · exact Or.inr (List.mem_cons_of_mem _ h4)

/-- `btreeInsert` keeps the key sequence strictly increasing. -/
theorem btreeInsert_pairwise {q : Queue} (k : Nat) (v : Track) (h : QueueWF q) :
    QueueWF (btreeInsert q k v) := by
  induction q with
  | nil => simp [btreeInsert, QueueWF]
  | cons hd rest ih =>
    obtain ⟨k', v'⟩ := hd
    rw [QueueWF, List.pairwise_cons] at h
    obtain ⟨hhd, htl⟩ := h
    rw [btreeInsert]
    by_cases h1 : k < k'
    · rw [if_pos h1, QueueWF, List.pairwise_cons]
      refine ⟨?_, List.pairwise_cons.mpr ⟨hhd, htl⟩⟩
      intro p hp
      rcases List.mem_cons.mp hp with rfl | h2
      · exact h1
      · exact Nat.lt_trans h1 (hhd p h2)
    · rw [if_neg h1]
      by_cases h2 : k = k'
      · rw [if_pos h2, QueueWF, List.pairwise_cons]
        refine ⟨?_, htl⟩
        intro p hp
        exact h2 ▸ hhd p hp
      · rw [if_neg h2, QueueWF, List.pairwise_cons]
        have hk : k' < k :=
          Nat.lt_of_le_of_ne (Nat.le_of_not_lt h1) fun e => h2 e.symm
        refine ⟨?_, ih htl⟩
        intro p hp
        rcases mem_btreeInsert hp with rfl | h3
        · exact hk
        · exact hhd p h3

/-- Any insertion sequence starting from the empty map yields a
well-formed (strictly key-sorted) queue. -/
theorem btreeInsertAll_wf (ops : List (Nat × Track)) : QueueWF (btreeInsertAll ops) := by
  have hgen : ∀ m : Queue, QueueWF m →
      QueueWF (ops.foldl (fun acc p => btreeInsert acc p.1 p.2) m) := by
    induction ops with
    | nil => exact fun m hm => hm
    | cons p rest ih =>
      intro m hm
      exact ih (btreeInsert m p.1 p.2) (btreeInsert_pairwise p.1 p.2 hm)
  exact hgen [] List.Pairwise.nil

/-- C9: however the queue was built (any insertion order of position
keys), the entries sit in strictly increasing position-key order,
`all_tracks()` returns exactly the tracks in that order, and the
serialized wire form lists the same tracks in the same order. -/
theorem all_tracks_position_order (ops : List (Nat × Track)) :
    QueueWF (btreeInsertAll ops)
      ∧ (TrackListValue.new (some (btreeInsertAll ops))).all_tracks
          = (btreeInsertAll ops).map Prod.snd
      ∧ serialize_btree (btreeInsertAll ops)
          = Json.arr
              (((TrackListValue.new (some (btreeInsertAll ops))).all_tracks).map
                encodeTrack) :=
  ⟨btreeInsertAll_wf ops, rfl, rfl⟩

/-- On a sorted queue, the first playing value in iteration order is a
playing entry whose position key is minimal among playing entries. -/
theorem find_first_playing (q : Queue) (hwf : QueueWF q)
    (hex : ∃ p ∈ q, p.2.status = TrackStatus.Playing) :
    ∃ i t, ((q.map Prod.snd).find? fun tr => decide (tr.status = TrackStatus.Playing))
        = some t
      ∧ (i, t) ∈ q ∧ t.status = TrackStatus.Playing
      ∧ ∀ j u, (j, u) ∈ q → u.status = TrackStatus.Playing → i ≤ j := by
  induction q with
  | nil =>
    obtain ⟨p, hp, _⟩ := hex
    cases hp
  | cons hd rest ih =>
    obtain ⟨k, v⟩ := hd
    rw [QueueWF, List.pairwise_cons] at hwf
    obtain ⟨hhd, htl⟩ := hwf
    by_cases hv : v.status = TrackStatus.Playing
    · refine ⟨k, v, ?_, List.mem_cons_self _ _, hv, ?_⟩
      · rw [List.map_cons, List.find?_cons_of_pos
          (p := fun tr : Track => decide (tr.status = TrackStatus.Playing)) _ (decide_eq_true hv)]
      · intro j u hm hu
        rcases List.mem_cons.mp hm with heq | hmem
        · cases heq
          exact Nat.le_refl k
        · exact Nat.le_of_lt (hhd (j, u) hmem)
    · have hex2 : ∃ p ∈ rest, p.2.status = TrackStatus.Playing := by
        obtain ⟨p, hp, hps⟩ := hex
        rcases List.mem_cons.mp hp with rfl | hmem
        · exact absurd hps hv
        · exact ⟨p, hmem, hps⟩
      obtain ⟨i, tr, hfind, hmem, hts, hmin⟩ := ih htl hex2
      refine ⟨i, tr, ?_, List.mem_cons_of_mem _ hmem, hts, ?_⟩
      · rw [List.map_cons, List.find?_cons_of_neg
          (p := fun tr : Track => decide (tr.status = TrackStatus.Playing)) _ (by simp [hv])]
        exact hfind
      · intro j u hm hu
        rcases List.mem_cons.mp hm with heq | hmem2
        · cases heq
          exact absurd hu hv
        · exact hmin j u hmem2 hu

/-- C10: on a well-formed queue with more than one playing track (a state
`new` does not rule out), `current_track()` returns the playing track at
the smallest position key — neither an error nor absent. -/
theorem current_track_min_playing (t : TrackListValue) (hwf : QueueWF t.queue)
    (h2 : 2 ≤ playingCount t) :
    ∃ i tr, t.current_track = some tr ∧ (i, tr) ∈ t.queue
      ∧ tr.status = TrackStatus.Playing
      ∧ ∀ j u, (j, u) ∈ t.queue → u.status = TrackStatus.Playing → i ≤ j := by
  have hex : ∃ p ∈ t.queue, p.2.status = TrackStatus.Playing := by
    have hlen : 0 < (t.all_tracks.filter
        fun tr => decide (tr.status = TrackStatus.Playing)).length :=
      Nat.lt_of_lt_of_le (by decide) h2
    obtain ⟨tr, htr⟩ := List.exists_mem_of_length_pos hlen
    have h3 := List.mem_filter.mp htr
    obtain ⟨p, hp, hpe⟩ := List.mem_map.mp h3.1
    refine ⟨p, hp, ?_⟩
    rw [hpe]
    exact of_decide_eq_true h3.2
  exact find_first_playing t.queue hwf hex

/-- Witness for C10: with playing tracks at positions 3 and 5,
`current_track()` is the playing track with the smallest key. -/
theorem current_track_min_playing_witness :
    QueueWF twoPlayingTL.queue ∧ 2 ≤ playingCount twoPlayingTL
      ∧ ∃ i tr, twoPlayingTL.current_track = some tr
          ∧ (i, tr) ∈ twoPlayingTL.queue
          ∧ tr.status = TrackStatus.Playing
          ∧ ∀ j u, (j, u) ∈ twoPlayingTL.queue →
              u.status = TrackStatus.Playing → i ≤ j :=
  ⟨by decide, by decide,
    current_track_min_playing twoPlayingTL (by decide) (by decide)⟩

/-- Witness for C8: position 9 is absent so the update is a no-op;
position 2 is present and only its status changes. -/
theorem set_track_status_frame_witness :
    (btreeGet frameTL.queue 9 = none
        ∧ frameTL.set_track_status 9 TrackStatus.Played = frameTL)
      ∧ btreeGet frameTL.queue 2 = some (mkTrack 5 TrackStatus.Playing)
      ∧ btreeGet (frameTL.set_track_status 2 TrackStatus.Played).queue 2
          = some { mkTrack 5 TrackStatus.Playing with status := TrackStatus.Played } :=
  ⟨⟨rfl, (set_track_status_frame frameTL 9 TrackStatus.Played).1 rfl⟩,
    rfl, ((set_track_status_frame frameTL 2 TrackStatus.Played).2 _ rfl).1⟩
